import Mathlib

/-!
Shallow embedding of the customer-segmentation core of `src/app.py`
(a Streamlit dashboard).  The three analysis functions
`calculate_abc_segmentation`, `calculate_frequency_segmentation` and
`calculate_rfm_segmentation` are translated into executable Lean
definitions over exact arithmetic (`ℚ` for currency amounts and for the
quantile/bin-edge computations that pandas performs in IEEE doubles,
`ℤ` for dates measured in days).  Comments at each definition record the
line of `src/app.py` it embeds and any float-vs-rational caveat.
-/

namespace Dashboard

/-- One purchase record of the input table: customer identity (顧客ID,
modelled as a natural number key), purchase amount (購入金額) and purchase
date (購入日, as a day number so that pandas timestamp subtraction
`.days` becomes integer subtraction). -/
structure Purchase where
  custId : ℕ
  amount : ℚ
  date : ℤ
deriving DecidableEq

/-- Per-customer aggregate produced by `df.groupby('顧客ID').agg(...)`
(lines 84-88 / 120-124): total amount (総購入金額) and purchase count
(購入回数). -/
structure CustomerAgg where
  custId : ℕ
  total : ℚ
  count : ℕ
deriving DecidableEq

/-- The distinct customer ids of the dataset, in ascending order: pandas
`groupby` with its default `sort=True` returns one group per distinct key,
sorted ascending. -/
def customers (df : List Purchase) : List ℕ :=
  List.insertionSort (· ≤ ·) (df.map Purchase.custId).dedup

/-- Sum of the amounts of one customer's records (`'購入金額': 'sum'`). -/
def totalFor (df : List Purchase) (c : ℕ) : ℚ :=
  ((df.filter (fun p => p.custId = c)).map Purchase.amount).sum

/-- Number of one customer's records (`'購入日': 'count'`; the count of
non-null dates is the count of the group's rows). -/
def countFor (df : List Purchase) (c : ℕ) : ℕ :=
  (df.filter (fun p => p.custId = c)).length

/-- The shared aggregation step (lines 84-88 and 120-124): one row per
distinct customer, keyed ascending, holding that customer's total amount
and purchase count. -/
def aggregate (df : List Purchase) : List CustomerAgg :=
  (customers df).map (fun c => ⟨c, totalFor df c, countFor df c⟩)

/-- Comparison by total amount, the sort key of line 91. -/
def leTotal (a b : CustomerAgg) : Prop := a.total ≤ b.total

instance : DecidableRel leTotal :=
  fun a b => inferInstanceAs (Decidable (a.total ≤ b.total))

instance : IsTotal CustomerAgg leTotal := ⟨fun a b => le_total a.total b.total⟩

instance : IsTrans CustomerAgg leTotal := ⟨fun _ _ _ h h2 => le_trans h h2⟩

/-- Line 91, `sort_values('総購入金額', ascending=False)`.  pandas computes
an ascending argsort of the column and reverses the resulting indexer for
`ascending=False`; numpy's default argsort degenerates to a stable
insertion sort on the small per-customer tables at issue here, so the
behaviour is: stable ascending sort, then reverse.  In particular two
customers with equal totals come out in REVERSED aggregation order. -/
def sortDesc (l : List CustomerAgg) : List CustomerAgg :=
  (List.insertionSort leTotal l).reverse

/-- Line 95, `total_sales = customer_sales['総購入金額'].sum()` (the sum of
the sorted column, equal to the grand total of all purchase amounts). -/
def totalSales (df : List Purchase) : ℚ :=
  ((sortDesc (aggregate df)).map (fun a => a.total)).sum

/-- Lines 99-102.  After `reset_index(drop=True)` the row labels are
`0..n-1` and `.loc` label slices are INCLUSIVE of both endpoints, so row
`int(n*0.2)` is first set to A and then overwritten to B, and row
`int(n*0.5)` is set to B.  IEEE doubles give `int(n*0.2) = n / 5` for
every n (0.2 is stored as 0.2·(1+2⁻⁵⁴), and n·that never rounds past the
next integer) and `int(n*0.5) = n / 2` exactly, so the final rank of the
row at position i is: B when n/5 ≤ i ≤ n/2, else A when i ≤ n/5
(that is, i < n/5), else the default C. -/
def abcRank (n i : ℕ) : String :=
  if n / 5 ≤ i ∧ i ≤ n / 2 then "B"
  else if i ≤ n / 5 then "A"
  else "C"

/-- One row of the ABC result table (lines 94-104): customer id, total
amount, count, cumulative amount (累積売上), cumulative share
(累積売上比率) and rank (ABCランク). -/
structure AbcRow where
  custId : ℕ
  total : ℚ
  count : ℕ
  cumTotal : ℚ
  cumShare : ℚ
  rank : String
deriving DecidableEq

/-- Lines 94-102 applied down the sorted table: running cumulative sum,
cumulative share `cum / total_sales * 100`, and the position-based rank.
When `total_sales = 0` pandas' float division yields NaN for every share;
in this exact embedding the division-by-zero junk value is 0.  Both
disagree with every numeric comparison such as `= 100`. -/
def attachRows (n : ℕ) (t : ℚ) : ℕ → ℚ → List CustomerAgg → List AbcRow
  | _, _, [] => []
  | i, acc, a :: rest =>
    { custId := a.custId, total := a.total, count := a.count,
      cumTotal := acc + a.total,
      cumShare := (acc + a.total) / t * 100,
      rank := abcRank n i } :: attachRows n t (i + 1) (acc + a.total) rest

/-- `calculate_abc_segmentation` (lines 70-104): aggregate per customer,
sort by total amount descending, attach cumulative amounts, shares and
position-based ABC ranks. -/
def calculate_abc_segmentation (df : List Purchase) : List AbcRow :=
  attachRows (sortDesc (aggregate df)).length (totalSales df) 0 0 (sortDesc (aggregate df))

/-- Lines 127-134, `classify_frequency`: count 1 → 新規顧客 (new), counts
2..4 → リピーター (repeat), anything else → ロイヤル顧客 (loyal). -/
def classify_frequency (count : ℕ) : String :=
  if count = 1 then "新規顧客"
  else if 2 ≤ count ∧ count ≤ 4 then "リピーター"
  else "ロイヤル顧客"

/-- One row of the frequency result table (lines 120-137). -/
structure FreqRow where
  custId : ℕ
  total : ℚ
  count : ℕ
  segment : String
deriving DecidableEq

/-- `calculate_frequency_segmentation` (lines 107-137): the shared
aggregate with `classify_frequency` applied to each row's count. -/
def calculate_frequency_segmentation (df : List Purchase) : List FreqRow :=
  (aggregate df).map (fun a => ⟨a.custId, a.total, a.count, classify_frequency a.count⟩)

/-- Maximum of a list of day numbers (pandas `Series.max`); the empty case
never feeds a computation (an empty group does not exist, and on an empty
dataset the aggregate below is empty). -/
def maxDate : List ℤ → ℤ
  | [] => 0
  | x :: xs => xs.foldl max x

/-- Line 154, `snapshot_date = df['購入日'].max()`. -/
def snapshotDate (df : List Purchase) : ℤ :=
  maxDate (df.map Purchase.date)

/-- Per-customer RFM metrics (lines 157-161): Recency = days from the
customer's own latest purchase to the snapshot date, Frequency = purchase
count, Monetary = total amount.  One row per distinct customer, keyed
ascending (groupby `sort=True`). -/
structure RfmAgg where
  custId : ℕ
  recency : ℤ
  frequency : ℕ
  monetary : ℚ
deriving DecidableEq

/-- Lines 157-161. -/
def rfmAggregate (df : List Purchase) : List RfmAgg :=
  (customers df).map (fun c =>
    ⟨c, snapshotDate df - maxDate ((df.filter (fun p => p.custId = c)).map Purchase.date),
     countFor df c, totalFor df c⟩)

/-- Linear-interpolation quantile of an ascending-sorted list, the scheme
`Series.quantile` (numpy `percentile`, interpolation `linear`) uses: at
probability p the fractional index is h = p·(m-1), and the value is
v⌊h⌋ + (h-⌊h⌋)·(v⌊h⌋₊₁ - v⌊h⌋).  Exact in ℚ where pandas rounds in
doubles; the claims proved below do not depend on that rounding. -/
def quantile (s : List ℚ) (p : ℚ) : ℚ :=
  s.getD (⌊p * ((s.length : ℚ) - 1)⌋).toNat 0
    + (p * ((s.length : ℚ) - 1) - ⌊p * ((s.length : ℚ) - 1)⌋)
      * (s.getD ((⌊p * ((s.length : ℚ) - 1)⌋).toNat + 1)
           (s.getD (⌊p * ((s.length : ℚ) - 1)⌋).toNat 0)
         - s.getD (⌊p * ((s.length : ℚ) - 1)⌋).toNat 0)

/-- The six bin edges `pd.qcut(x, q=5)` computes: the quantiles of the
data at probabilities 0, 0.2, 0.4, 0.6, 0.8, 1. -/
def qcutEdges (values : List ℚ) : List ℚ :=
  [(0 : ℚ), 1/5, 2/5, 3/5, 4/5, 1].map
    (fun p => quantile (List.insertionSort (· ≤ ·) values) p)

/-- Bin index of a value for right-closed bins over edges e₀ < … < e₅:
the number of interior edges e₁..e₄ strictly below the value.  A value in
(eᵢ, eᵢ₊₁] gets index i, the minimum (= e₀ for qcut, which bins it via
`include_lowest=True`; > the adjusted e₀ for cut) gets index 0. -/
def binIdx (edges : List ℚ) (v : ℚ) : ℕ :=
  (((edges.drop 1).take 4).filter (fun e => e < v)).length

/-- Lines 166/172/177, `pd.qcut(col, q=5, labels=L, duplicates='drop')`
followed by `.astype(int)`.  pandas drops duplicate quantile edges and
then, because explicit labels are given, raises
`Bin labels must be one fewer than the number of bin edges` whenever any
edge was dropped; that raise is caught by the bare `except` and modelled
here as `none`.  On the empty input the quantiles are all NaN, pandas'
unique() collapses them to one edge and the same label-count error is
raised, so the empty case is also `none`.  When all six edges are
distinct every value lies in [e₀, e₅] and gets the label of its bin. -/
def qcutScores (values : List ℚ) (labels : List ℤ) : Option (List ℤ) :=
  if values = [] then none
  else if (qcutEdges values).dedup.length = 6 then
    some (values.map (fun v => labels.getD (binIdx (qcutEdges values) v) 0))
  else none

/-- The `np.linspace(lo, hi, 6)` grid: five equal-width steps with the
endpoint exactly `hi`. -/
def linspace6 (lo hi : ℚ) : List ℚ :=
  [lo, lo + (hi - lo) / 5, lo + 2 * (hi - lo) / 5, lo + 3 * (hi - lo) / 5,
   lo + 4 * (hi - lo) / 5, hi]

/-- Lines 169/174/179, `pd.cut(col, bins=5, labels=L)` followed by
`.astype(int)` — the equal-width fallback.  pandas raises
`Cannot cut empty array` on an empty input (modelled `none`; at these call
sites that raise is NOT inside the `try`, so it propagates).  Otherwise it
takes 5 equal-width right-closed bins over [min, max]; when min = max the
range is first widened by 0.1% of |value| (0.001 for the value 0) on each
side, and when min < max the leftmost edge alone is lowered by 0.1% of the
span so the minimum falls in the first bin.  A value outside
(e₀adj, e₅] would get NaN and make `.astype(int)` raise — modelled `none`;
the lemmas below show this cannot happen for these call sites, whose
values are the very list the edges are computed from. -/
def cutScores (values : List ℚ) (labels : List ℤ) : Option (List ℤ) :=
  match values with
  | [] => none
  | v0 :: rest =>
    let mn := rest.foldl min v0
    let mx := rest.foldl max v0
    if mn = mx then
      let lo := mn - (if mn = 0 then 1/1000 else |mn| / 1000)
      let hi := mx + (if mx = 0 then 1/1000 else |mx| / 1000)
      if _h : ∀ v ∈ v0 :: rest, lo < v ∧ v ≤ hi then
        some ((v0 :: rest).map (fun v => labels.getD (binIdx (linspace6 lo hi) v) 0))
      else none
    else
      let e0 := mn - (mx - mn) / 1000
      if _h : ∀ v ∈ v0 :: rest, e0 < v ∧ v ≤ mx then
        some ((v0 :: rest).map (fun v => labels.getD (binIdx (linspace6 mn mx) v) 0))
      else none

/-- One scored column of lines 165-179: try quantile binning, and on its
(caught) failure fall back to equal-width binning.  `none` means the code
raises out of the function (only possible from the fallback, i.e. on the
empty dataset). -/
def scoreColumn (values : List ℚ) (labels : List ℤ) : Option (List ℤ) :=
  match qcutScores values labels with
  | some s => some s
  | none => cutScores values labels

/-- One row of the RFM result table (lines 140-206). -/
structure RfmRow where
  custId : ℕ
  recency : ℤ
  frequency : ℕ
  monetary : ℚ
  rScore : ℤ
  fScore : ℤ
  mScore : ℤ
  rfmScore : ℚ
  segment : String
deriving DecidableEq

/-- Lines 185-202, `classify_rfm`: the row's combined score and R/F/M
scores run through a first-match-wins chain of rules.  The numeric
comparisons involve thirds of small integers against 4.5 and 3.5, which
IEEE doubles decide exactly as ℚ does (no sum of three integers in [1,5]
has a third within float error of 4.5 or 3.5). -/
def classify_rfm (score : ℚ) (r f m : ℤ) : String :=
  if 9/2 ≤ score then "優良顧客"
  else if 7/2 ≤ score then "有望顧客"
  else if r ≤ 2 then "休眠顧客"
  else if f = 1 ∧ 4 ≤ m then "新規優良顧客"
  else if f = 1 then "新規顧客"
  else "一般顧客"

/-- `calculate_rfm_segmentation` (lines 140-206): RFM aggregation, the
three scored columns (recency with descending labels 5..1, frequency and
monetary with ascending labels 1..5), the combined score (mean of the
three) and the segment label.  `none` models the function raising (which
happens exactly on the empty dataset, where the fallback `pd.cut` raises
`Cannot cut empty array` outside any `try`). -/
def calculate_rfm_segmentation (df : List Purchase) : Option (List RfmRow) :=
  match scoreColumn ((rfmAggregate df).map (fun a => (a.recency : ℚ))) [5, 4, 3, 2, 1],
        scoreColumn ((rfmAggregate df).map (fun a => (a.frequency : ℚ))) [1, 2, 3, 4, 5],
        scoreColumn ((rfmAggregate df).map (fun a => a.monetary)) [1, 2, 3, 4, 5] with
  | some rs, some fs, some ms =>
    some (((((rfmAggregate df).zip rs).zip fs).zip ms).map (fun x =>
      { custId := x.1.1.1.custId, recency := x.1.1.1.recency,
        frequency := x.1.1.1.frequency, monetary := x.1.1.1.monetary,
        rScore := x.1.1.2, fScore := x.1.2, mScore := x.2,
        rfmScore := ((x.1.1.2 : ℚ) + (x.1.2 : ℚ) + (x.2 : ℚ)) / 3,
        segment := classify_rfm (((x.1.1.2 : ℚ) + (x.1.2 : ℚ) + (x.2 : ℚ)) / 3)
          x.1.1.2 x.1.2 x.2 }))
  | _, _, _ => none

/-- The spec's ten-customer scenario: ids 1..10, one purchase each, total
amounts 1000 down to 100 (all on the same day). -/
def ds10 : List Purchase :=
  [⟨1, 1000, 0⟩, ⟨2, 900, 0⟩, ⟨3, 800, 0⟩, ⟨4, 700, 0⟩, ⟨5, 600, 0⟩,
   ⟨6, 500, 0⟩, ⟨7, 400, 0⟩, ⟨8, 300, 0⟩, ⟨9, 200, 0⟩, ⟨10, 100, 0⟩]

/-- The spec's single-customer scenario: one purchase of amount 500. -/
def ds1 : List Purchase := [⟨1, 500, 0⟩]

/-- Two customers with equal total amounts, aggregation order 1 then 2. -/
def dsTie : List Purchase := [⟨1, 100, 0⟩, ⟨2, 100, 0⟩]

/-- A non-empty dataset whose grand total is zero (the data model allows a
zero purchase amount). -/
def dsZero : List Purchase := [⟨1, 0, 0⟩]

/-- A small mixed dataset: customer 1 purchased twice, customer 2 once. -/
def dsMixed : List Purchase := [⟨1, 10, 0⟩, ⟨1, 20, 3⟩, ⟨2, 5, 1⟩]

/-- Three customers, one purchase each, distinct amounts and dates. -/
def dsOnce : List Purchase := [⟨1, 10, 0⟩, ⟨2, 20, 1⟩, ⟨3, 30, 2⟩]

/-! ## Helper lemmas about the ABC pipeline -/

theorem attachRows_map_custId (n : ℕ) (t : ℚ) :
    ∀ (l : List CustomerAgg) (i : ℕ) (acc : ℚ),
      (attachRows n t i acc l).map (fun r => r.custId) = l.map (fun a => a.custId)
  | [], _, _ => rfl
  | a :: rest, i, acc => by
    simp only [attachRows, List.map_cons]
    rw [attachRows_map_custId n t rest (i + 1) (acc + a.total)]

theorem attachRows_map_total (n : ℕ) (t : ℚ) :
    ∀ (l : List CustomerAgg) (i : ℕ) (acc : ℚ),
      (attachRows n t i acc l).map (fun r => r.total) = l.map (fun a => a.total)
  | [], _, _ => rfl
  | a :: rest, i, acc => by
    simp only [attachRows, List.map_cons]
    rw [attachRows_map_total n t rest (i + 1) (acc + a.total)]

theorem attachRows_rank (n : ℕ) (t : ℚ) :
    ∀ (l : List CustomerAgg) (i : ℕ) (acc : ℚ) (r : AbcRow),
      r ∈ attachRows n t i acc l → ∃ k, r.rank = abcRank n k
  | a :: rest, i, acc, r, hr => by
    rcases List.mem_cons.mp hr with h | h
    · exact ⟨i, by rw [h]⟩
    · exact attachRows_rank n t rest (i + 1) (acc + a.total) r h

theorem abcRank_cases (n i : ℕ) :
    abcRank n i = "A" ∨ abcRank n i = "B" ∨ abcRank n i = "C" := by
  unfold abcRank
  split
  · exact Or.inr (Or.inl rfl)
  split
  · exact Or.inl rfl
  · exact Or.inr (Or.inr rfl)

theorem mem_customers {df : List Purchase} {c : ℕ} :
    c ∈ customers df ↔ c ∈ df.map Purchase.custId := by
  unfold customers
  rw [(List.perm_insertionSort _ _).mem_iff, List.mem_dedup]

theorem customers_nodup (df : List Purchase) : (customers df).Nodup :=
  ((List.perm_insertionSort _ _).nodup_iff).mpr (List.nodup_dedup _)

theorem aggregate_map_custId (df : List Purchase) :
    (aggregate df).map (fun a => a.custId) = customers df := by
  unfold aggregate
  rw [List.map_map]
  exact List.map_id' _

theorem sortDesc_perm (l : List CustomerAgg) : (sortDesc l).Perm l :=
  (List.reverse_perm _).trans (List.perm_insertionSort _ _)

theorem abc_map_custId (df : List Purchase) :
    (calculate_abc_segmentation df).map (fun r => r.custId)
      = (sortDesc (aggregate df)).map (fun a => a.custId) :=
  attachRows_map_custId _ _ _ _ _

theorem abc_custId_perm_customers (df : List Purchase) :
    ((calculate_abc_segmentation df).map (fun r => r.custId)).Perm (customers df) := by
  rw [abc_map_custId, ← aggregate_map_custId df]
  exact (sortDesc_perm _).map _

theorem attachRows_getLast (n : ℕ) (t : ℚ) :
    ∀ (l : List CustomerAgg) (i : ℕ) (acc : ℚ), l ≠ [] →
      ((attachRows n t i acc l).getLast?).map (fun r => (r.cumTotal, r.cumShare))
        = some (acc + (l.map (fun a => a.total)).sum,
                (acc + (l.map (fun a => a.total)).sum) / t * 100)
  | [], _, _, h => absurd rfl h
  | [a], i, acc, _ => by
    simp [attachRows]
  | a :: b :: rest, i, acc, _ => by
    have ih := attachRows_getLast n t (b :: rest) (i + 1) (acc + a.total) (by simp)
    simp only [attachRows, List.getLast?_cons_cons] at ih ⊢
    rw [ih]
    simp only [List.map_cons, List.sum_cons, Option.some.injEq, Prod.mk.injEq]
    constructor
    · ring
    · ring_nf

theorem sortDesc_aggregate_ne_nil {df : List Purchase} (h : df ≠ []) :
    sortDesc (aggregate df) ≠ [] := by
  match df, h with
  | p :: rest, _ =>
    have hc : p.custId ∈ customers (p :: rest) := by
      rw [mem_customers]
      exact List.mem_map_of_mem _ (List.mem_cons_self p rest)
    intro hnil
    have : p.custId ∈ (aggregate (p :: rest)).map (fun a => a.custId) := by
      rw [aggregate_map_custId]; exact hc
    have := ((sortDesc_perm (aggregate (p :: rest))).symm.map
      (fun a => a.custId)).subset this
    rw [hnil] at this
    exact absurd this (by simp)

/-! ## Claim theorems -/

set_option maxRecDepth 4000 in
/-- Concrete evaluation of the ABC pipeline on the ten-customer scenario
(used by the C1 theorems). -/
theorem abc_ds10_eval :
    calculate_abc_segmentation ds10 =
      [⟨1, 1000, 1, 1000, 200/11, "A"⟩, ⟨2, 900, 1, 1900, 380/11, "A"⟩,
       ⟨3, 800, 1, 2700, 540/11, "B"⟩, ⟨4, 700, 1, 3400, 680/11, "B"⟩,
       ⟨5, 600, 1, 4000, 800/11, "B"⟩, ⟨6, 500, 1, 4500, 900/11, "B"⟩,
       ⟨7, 400, 1, 4900, 980/11, "C"⟩, ⟨8, 300, 1, 5200, 1040/11, "C"⟩,
       ⟨9, 200, 1, 5400, 1080/11, "C"⟩, ⟨10, 100, 1, 5500, 100, "C"⟩] := by
  norm_num [ds10, calculate_abc_segmentation, sortDesc, aggregate, customers,
    totalFor, countFor, totalSales, attachRows, abcRank, leTotal, List.dedup,
    List.pwFilter]

/-- C1, counterexample.  On the ten-customer scenario the claimed split
A = 2 / B = 3 / C = 5 is wrong: row `int(10*0.2) = 2` is overwritten from
A to B and the inclusive `.loc` slice also paints row `int(10*0.5) = 5`
with B, so tier B holds the FOUR customers with amounts 800, 700, 600 and
500 and tier C only the remaining four. -/
theorem abc_ten_customer_counterexample :
    ((calculate_abc_segmentation ds10).filter (fun r => r.rank = "B")).map
        (fun r => r.total) = [800, 700, 600, 500] ∧
    ((calculate_abc_segmentation ds10).filter (fun r => r.rank = "B")).length ≠ 3 ∧
    ((calculate_abc_segmentation ds10).filter (fun r => r.rank = "C")).length ≠ 5 := by
  rw [abc_ds10_eval]
  simp

/-- C1, amended.  Ten customers with totals 1000..100: tier A is exactly
the first two customers (1000, 900), tier B the next FOUR (800, 700, 600,
500), tier C the remaining FOUR; the grand total is 5500 and the first
row's cumulative share is 1000/5500·100 = 200/11 (≈ 18.18%). -/
theorem abc_ten_customer_tiers :
    ((calculate_abc_segmentation ds10).filter (fun r => r.rank = "A")).map
        (fun r => r.total) = [1000, 900] ∧
    ((calculate_abc_segmentation ds10).filter (fun r => r.rank = "B")).map
        (fun r => r.total) = [800, 700, 600, 500] ∧
    ((calculate_abc_segmentation ds10).filter (fun r => r.rank = "C")).map
        (fun r => r.total) = [400, 300, 200, 100] ∧
    totalSales ds10 = 5500 ∧
    ((calculate_abc_segmentation ds10).head?).map (fun r => r.cumShare)
      = some (200 / 11) := by
  have ht : totalSales ds10 = 5500 := by
    norm_num [ds10, totalSales, sortDesc, aggregate, customers, totalFor,
      countFor, leTotal, List.dedup, List.pwFilter]
  rw [abc_ds10_eval, ht]
  simp

/-- Concrete evaluation of the ABC pipeline on the single-customer
scenario (used by the C2 theorems). -/
theorem abc_ds1_eval :
    calculate_abc_segmentation ds1 = [⟨1, 500, 1, 500, 100, "B"⟩] := by
  norm_num [ds1, calculate_abc_segmentation, sortDesc, aggregate, customers,
    totalFor, countFor, totalSales, attachRows, abcRank, leTotal, List.dedup,
    List.pwFilter]

/-- C2, counterexample.  A single customer with one purchase of 500 gets
rank B, not A: with n = 1 both boundary indices are 0, so the B
assignment `.loc[0:0]` overwrites the A assignment `.loc[:0]` on the only
row. -/
theorem abc_single_customer_counterexample :
    (calculate_abc_segmentation ds1).map (fun r => r.rank) = ["B"] ∧
    ((calculate_abc_segmentation ds1).map (fun r => r.rank) ≠ ["A"]) := by
  rw [abc_ds1_eval]
  simp

/-- C2, amended.  The single-customer result has exactly one row, with
cumulative share 100% as claimed, but its tier label is B. -/
theorem abc_single_customer_row :
    (calculate_abc_segmentation ds1).length = 1 ∧
    (calculate_abc_segmentation ds1).map (fun r => r.rank) = ["B"] ∧
    (calculate_abc_segmentation ds1).map (fun r => r.cumShare) = [100] := by
  rw [abc_ds1_eval]
  simp

/-- C4.  The ABC tiers partition the customer set: the output's customer
ids are a permutation of the distinct input ids (so no customer is
omitted and none appears twice), and every row carries exactly one of the
labels A, B, C. -/
theorem abc_ranks_partition (df : List Purchase) :
    ((calculate_abc_segmentation df).map (fun r => r.custId)).Perm (customers df) ∧
    ((calculate_abc_segmentation df).map (fun r => r.custId)).Nodup ∧
    (∀ c : ℕ, c ∈ (calculate_abc_segmentation df).map (fun r => r.custId) ↔
      c ∈ df.map Purchase.custId) ∧
    ∀ r ∈ calculate_abc_segmentation df, r.rank = "A" ∨ r.rank = "B" ∨ r.rank = "C" := by
  refine ⟨abc_custId_perm_customers df, ?_, ?_, ?_⟩
  · exact ((abc_custId_perm_customers df).nodup_iff).mpr (customers_nodup df)
  · intro c
    rw [(abc_custId_perm_customers df).mem_iff, mem_customers]
  · intro r hr
    obtain ⟨k, hk⟩ := attachRows_rank _ _ _ _ _ r hr
    rw [hk]
    exact abcRank_cases _ _

/-- C10.  Frequency segmentation labels each row purely as a function of
its purchase count, with the fixed thresholds 1 → 新規顧客 (new),
2..4 → リピーター (repeat), ≥ 5 → ロイヤル顧客 (loyal). -/
theorem frequency_thresholds (df : List Purchase) (r : FreqRow)
    (hr : r ∈ calculate_frequency_segmentation df) :
    r.segment = classify_frequency r.count ∧
    (r.count = 1 → r.segment = "新規顧客") ∧
    (2 ≤ r.count → r.count ≤ 4 → r.segment = "リピーター") ∧
    (5 ≤ r.count → r.segment = "ロイヤル顧客") := by
  obtain ⟨a, _, rfl⟩ := List.mem_map.mp hr
  dsimp only
  refine ⟨rfl, ?_, ?_, ?_⟩
  · intro h1
    simp [classify_frequency, h1]
  · intro h2 h4
    unfold classify_frequency
    rw [if_neg (by omega), if_pos ⟨h2, h4⟩]
  · intro h5
    unfold classify_frequency
    rw [if_neg (by omega), if_neg (by omega)]

/-- Concrete evaluation of the frequency pipeline on `dsMixed`. -/
theorem freq_dsMixed_eval :
    calculate_frequency_segmentation dsMixed
      = [⟨1, 30, 2, "リピーター"⟩, ⟨2, 5, 1, "新規顧客"⟩] := by
  norm_num [dsMixed, calculate_frequency_segmentation, aggregate, customers,
    totalFor, countFor, classify_frequency, List.dedup, List.pwFilter]

/-- C10, witness: on `dsMixed` the repeat customer 1 (count 2) is labeled
リピーター by every clause of `frequency_thresholds`. -/
theorem frequency_thresholds_witness :
    (FreqRow.mk 1 30 2 "リピーター").segment
        = classify_frequency (FreqRow.mk 1 30 2 "リピーター").count ∧
    ((FreqRow.mk 1 30 2 "リピーター").count = 1 →
      (FreqRow.mk 1 30 2 "リピーター").segment = "新規顧客") ∧
    (2 ≤ (FreqRow.mk 1 30 2 "リピーター").count →
      (FreqRow.mk 1 30 2 "リピーター").count ≤ 4 →
      (FreqRow.mk 1 30 2 "リピーター").segment = "リピーター") ∧
    (5 ≤ (FreqRow.mk 1 30 2 "リピーター").count →
      (FreqRow.mk 1 30 2 "リピーター").segment = "ロイヤル顧客") :=
  frequency_thresholds dsMixed (FreqRow.mk 1 30 2 "リピーター")
    (by rw [freq_dsMixed_eval]; simp)

/-- Concrete evaluation of the ABC pipeline on the two-customer tie
(used by the C8 counterexample). -/
theorem abc_dsTie_eval :
    calculate_abc_segmentation dsTie
      = [⟨2, 100, 1, 100, 50, "B"⟩, ⟨1, 100, 1, 200, 100, "B"⟩] := by
  norm_num [dsTie, calculate_abc_segmentation, sortDesc, aggregate, customers,
    totalFor, countFor, totalSales, attachRows, abcRank, leTotal, List.dedup,
    List.pwFilter]

/-- C8, counterexample.  Customers 1 and 2 have equal totals and appear in
the aggregate in the order 1, 2, but the output lists them as 2, 1:
`sort_values(ascending=False)` reverses a (here stable) ascending argsort,
so equal keys come out in reversed aggregation order — the sort is not
stable on ties. -/
theorem abc_tie_order_counterexample :
    (aggregate dsTie).map (fun a => a.custId) = [1, 2] ∧
    (aggregate dsTie).map (fun a => a.total) = [100, 100] ∧
    (calculate_abc_segmentation dsTie).map (fun r => r.custId) = [2, 1] := by
  refine ⟨?_, ?_, ?_⟩
  · decide
  · norm_num [dsTie, aggregate, customers, totalFor, countFor, List.dedup,
      List.pwFilter]
  · rw [abc_dsTie_eval]
    simp

/-- C8, amended.  The ABC output is sorted by total amount descending and
holds each aggregated customer exactly once; the tie order is
deterministic but is the REVERSE of the aggregation order (see the
counterexample), not the aggregation order itself. -/
theorem abc_sorted_descending (df : List Purchase) :
    ((calculate_abc_segmentation df).map (fun r => r.total)).Sorted (· ≥ ·) ∧
    ((calculate_abc_segmentation df).map (fun r => r.custId)).Perm
      ((aggregate df).map (fun a => a.custId)) := by
  constructor
  · have h1 : (calculate_abc_segmentation df).map (fun r => r.total)
        = ((List.insertionSort leTotal (aggregate df)).map (fun a => a.total)).reverse := by
      rw [show calculate_abc_segmentation df
            = attachRows (sortDesc (aggregate df)).length (totalSales df) 0 0
                (sortDesc (aggregate df)) from rfl,
          attachRows_map_total, sortDesc, List.map_reverse]
    rw [h1]
    apply List.pairwise_reverse.mpr
    apply List.pairwise_map.mpr
    exact List.sorted_insertionSort leTotal (aggregate df)
  · rw [abc_map_custId]
    exact (sortDesc_perm _).map _

/-- C9, counterexample.  A non-empty dataset whose grand total is 0 (one
purchase of amount 0) has a last row, but its cumulative share is not 100:
pandas computes 0/0, which is NaN (junk value 0 in this exact embedding),
and either way the comparison with 100 fails. -/
theorem abc_last_share_counterexample :
    (calculate_abc_segmentation dsZero).length = 1 ∧
    ((calculate_abc_segmentation dsZero).getLast?).map (fun r => r.cumShare)
      ≠ some 100 := by
  have h : calculate_abc_segmentation dsZero = [⟨1, 0, 1, 0, 0, "B"⟩] := by
    norm_num [dsZero, calculate_abc_segmentation, sortDesc, aggregate,
      customers, totalFor, countFor, totalSales, attachRows, abcRank, leTotal,
      List.dedup, List.pwFilter]
  rw [h]
  simp

/-- C9, amended.  For every non-empty dataset the last ABC row's
cumulative amount equals the grand total, and whenever the grand total is
nonzero its cumulative share is exactly 100 (in exact arithmetic; within
floating-point tolerance in the original). -/
theorem abc_last_row_share (df : List Purchase) (hne : df ≠ []) :
    ((calculate_abc_segmentation df).getLast?).map (fun r => r.cumTotal)
      = some (totalSales df) ∧
    (totalSales df ≠ 0 →
      ((calculate_abc_segmentation df).getLast?).map (fun r => r.cumShare)
        = some 100) := by
  have hl := attachRows_getLast (sortDesc (aggregate df)).length (totalSales df)
    (sortDesc (aggregate df)) 0 0 (sortDesc_aggregate_ne_nil hne)
  have habc : calculate_abc_segmentation df
      = attachRows (sortDesc (aggregate df)).length (totalSales df) 0 0
          (sortDesc (aggregate df)) := rfl
  rcases ho : (attachRows (sortDesc (aggregate df)).length (totalSales df) 0 0
      (sortDesc (aggregate df))).getLast? with _ | r
  · rw [ho] at hl
    exact absurd hl (by simp)
  · rw [ho] at hl
    simp only [Option.map_some', Option.some.injEq, Prod.mk.injEq] at hl
    obtain ⟨h1, h2⟩ := hl
    have hsum : (0 : ℚ) + (((sortDesc (aggregate df)).map (fun a => a.total)).sum)
        = totalSales df := by
      rw [zero_add]; rfl
    constructor
    · rw [habc, ho, Option.map_some', h1, hsum]
    · intro ht
      rw [habc, ho, Option.map_some', h2, hsum, Option.some.injEq,
        div_self ht, one_mul]

/-- C9, witness: the single-customer dataset `ds1` is non-empty with grand
total 500 ≠ 0, and its last (only) row has cumulative amount 500 and
cumulative share exactly 100. -/
theorem abc_last_row_share_witness :
    ((calculate_abc_segmentation ds1).getLast?).map (fun r => r.cumTotal)
      = some (totalSales ds1) ∧
    ((calculate_abc_segmentation ds1).getLast?).map (fun r => r.cumShare)
      = some 100 :=
  ⟨(abc_last_row_share ds1 (by simp [ds1])).1,
   (abc_last_row_share ds1 (by simp [ds1])).2
     (by norm_num [ds1, totalSales, sortDesc, aggregate, customers, totalFor,
       countFor, leTotal, List.dedup, List.pwFilter])⟩

/-! ## Helper lemmas about the RFM scoring pipeline -/

theorem binIdx_le (edges : List ℚ) (v : ℚ) : binIdx edges v ≤ 4 := by
  unfold binIdx
  calc ((((edges.drop 1).take 4).filter (fun e => decide (e < v)))).length
      ≤ ((edges.drop 1).take 4).length := List.length_filter_le _ _
    _ ≤ 4 := by simp

theorem getD_mem_of_lt {α : Type} {l : List α} {i : ℕ} (h : i < l.length) (d : α) :
    l.getD i d ∈ l := by
  rw [List.getD_eq_getElem?_getD, List.getElem?_eq_getElem h]
  exact List.getElem_mem h

theorem label_getD_mem {labels : List ℤ} (h5 : labels.length = 5)
    (edges : List ℚ) (v : ℚ) : labels.getD (binIdx edges v) 0 ∈ labels :=
  getD_mem_of_lt (by rw [h5]; exact lt_of_le_of_lt (binIdx_le edges v) (by omega)) 0

theorem qcutScores_mem {values : List ℚ} {labels : List ℤ} {s : List ℤ}
    (h5 : labels.length = 5) (h : qcutScores values labels = some s) :
    ∀ x ∈ s, x ∈ labels := by
  unfold qcutScores at h
  split at h
  · exact absurd h (by simp)
  · split at h
    · injection h with h
      subst h
      intro x hx
      obtain ⟨v, _, rfl⟩ := List.mem_map.mp hx
      exact label_getD_mem h5 _ _
    · exact absurd h (by simp)

theorem cutScores_mem {values : List ℚ} {labels : List ℤ} {s : List ℤ}
    (h5 : labels.length = 5) (h : cutScores values labels = some s) :
    ∀ x ∈ s, x ∈ labels := by
  cases values with
  | nil => simp [cutScores] at h
  | cons v0 rest =>
    simp only [cutScores] at h
    repeat' split at h
    all_goals first
      | (injection h with h
         subst h
         intro x hx
         obtain ⟨v, _, rfl⟩ := List.mem_map.mp hx
         exact label_getD_mem h5 _ _)
      | exact absurd h (by simp)

theorem scoreColumn_eq_cut {values : List ℚ} {labels : List ℤ}
    (hq : qcutScores values labels = none) :
    scoreColumn values labels = cutScores values labels := by
  unfold scoreColumn
  rw [hq]

theorem scoreColumn_mem {values : List ℚ} {labels : List ℤ} {s : List ℤ}
    (h5 : labels.length = 5) (h : scoreColumn values labels = some s) :
    ∀ x ∈ s, x ∈ labels := by
  cases hq : qcutScores values labels with
  | some s2 =>
    have h2 : s2 = s := by
      unfold scoreColumn at h
      rw [hq] at h
      exact Option.some.inj h
    subst h2
    exact qcutScores_mem h5 hq
  | none =>
    rw [scoreColumn_eq_cut hq] at h
    exact cutScores_mem h5 h

theorem foldl_min_le : ∀ (l : List ℚ) (a : ℚ), ∀ v ∈ a :: l, l.foldl min a ≤ v
  | [], a => by
    intro v hv
    simp only [List.mem_singleton] at hv
    simp [hv]
  | b :: t, a => by
    intro v hv
    have base := foldl_min_le t (min a b)
    have hle : t.foldl min (min a b) ≤ min a b := base _ (List.mem_cons_self _ _)
    rcases List.mem_cons.mp hv with rfl | hv2
    · exact le_trans hle (min_le_left _ _)
    rcases List.mem_cons.mp hv2 with rfl | hv3
    · exact le_trans hle (min_le_right _ _)
    · exact base v (List.mem_cons_of_mem _ hv3)

theorem le_foldl_max : ∀ (l : List ℚ) (a : ℚ), ∀ v ∈ a :: l, v ≤ l.foldl max a
  | [], a => by
    intro v hv
    simp only [List.mem_singleton] at hv
    simp [hv]
  | b :: t, a => by
    intro v hv
    have base := le_foldl_max t (max a b)
    have hle : max a b ≤ t.foldl max (max a b) := base _ (List.mem_cons_self _ _)
    rcases List.mem_cons.mp hv with rfl | hv2
    · exact le_trans (le_max_left _ _) hle
    rcases List.mem_cons.mp hv2 with rfl | hv3
    · exact le_trans (le_max_right _ _) hle
    · exact base v (List.mem_cons_of_mem _ hv3)

theorem cutScores_isSome (values : List ℚ) (labels : List ℤ) (hne : values ≠ []) :
    ∃ s, cutScores values labels = some s := by
  cases values with
  | nil => exact absurd rfl hne
  | cons v0 rest =>
    have h1 := foldl_min_le rest v0
    have h2 := le_foldl_max rest v0
    have h12 : List.foldl min v0 rest ≤ List.foldl max v0 rest :=
      le_trans (h1 v0 (List.mem_cons_self _ _)) (h2 v0 (List.mem_cons_self _ _))
    simp only [cutScores]
    by_cases hc : List.foldl min v0 rest = List.foldl max v0 rest
    · rw [if_pos hc]
      by_cases hz1 : List.foldl min v0 rest = 0
      · have hz2 : List.foldl max v0 rest = 0 := hc.symm.trans hz1
        rw [if_pos hz1, if_pos hz2]
        exact ⟨_, dif_pos (fun v hv =>
          ⟨by linarith [h1 v hv], by linarith [h2 v hv]⟩)⟩
      · have hz2 : ¬ List.foldl max v0 rest = 0 := fun hx => hz1 (hc.trans hx)
        rw [if_neg hz1, if_neg hz2]
        have ha1 : (0 : ℚ) < |List.foldl min v0 rest| / 1000 :=
          div_pos (abs_pos.mpr hz1) (by norm_num)
        have ha2 : (0 : ℚ) < |List.foldl max v0 rest| / 1000 :=
          div_pos (abs_pos.mpr hz2) (by norm_num)
        exact ⟨_, dif_pos (fun v hv =>
          ⟨by linarith [h1 v hv], by linarith [h2 v hv]⟩)⟩
    · rw [if_neg hc]
      have hlt : List.foldl min v0 rest < List.foldl max v0 rest :=
        lt_of_le_of_ne h12 hc
      have ha : (0 : ℚ) < (List.foldl max v0 rest - List.foldl min v0 rest) / 1000 :=
        div_pos (by linarith) (by norm_num)
      exact ⟨_, dif_pos (fun v hv =>
        ⟨by linarith [h1 v hv], h2 v hv⟩)⟩

theorem scoreColumn_isSome (values : List ℚ) (labels : List ℤ) (hne : values ≠ []) :
    ∃ s, scoreColumn values labels = some s := by
  cases hq : qcutScores values labels with
  | some s2 =>
    refine ⟨s2, ?_⟩
    unfold scoreColumn
    rw [hq]
  | none =>
    rw [scoreColumn_eq_cut hq]
    exact cutScores_isSome values labels hne

theorem customers_ne_nil {df : List Purchase} (h : df ≠ []) : customers df ≠ [] := by
  match df, h with
  | p :: rest, _ =>
    have hc : p.custId ∈ customers (p :: rest) := by
      rw [mem_customers]
      exact List.mem_map_of_mem _ (List.mem_cons_self p rest)
    exact List.ne_nil_of_mem hc

/-- C3.  On the empty dataset the ABC and frequency segmenters return
empty tables, but the RFM segmenter errors: the frequency/recency/monetary
quantile binning fails (caught), and the fallback `pd.cut` raises
`Cannot cut empty array` outside any `try`, so the exception propagates to
the caller (modelled as `none`). -/
theorem empty_dataset_results :
    calculate_abc_segmentation [] = [] ∧
    calculate_frequency_segmentation [] = [] ∧
    calculate_rfm_segmentation [] = none := by
  refine ⟨rfl, rfl, ?_⟩
  rfl

/-- C5.  `classify_rfm` evaluates its rules first-match-wins: any row whose
combined score is at least 4.5 is labeled 優良顧客 (champion) regardless of
its frequency score, in particular never 新規顧客 (new customer). -/
theorem rfm_rule_precedence (score : ℚ) (r f m : ℤ)
    (hs : 9 / 2 ≤ score) (_hf : f = 1) :
    classify_rfm score r f m = "優良顧客" ∧ classify_rfm score r f m ≠ "新規顧客" := by
  unfold classify_rfm
  rw [if_pos hs]
  exact ⟨rfl, by simp⟩

/-- C5, witness: a synthetic row with combined score 4.6 and frequency
score 1 is classified 優良顧客, not 新規顧客. -/
theorem rfm_rule_precedence_witness :
    classify_rfm (23 / 5) 5 1 5 = "優良顧客" ∧
    classify_rfm (23 / 5) 5 1 5 ≠ "新規顧客" :=
  rfm_rule_precedence (23 / 5) 5 1 5 (by norm_num) rfl

theorem quantile_const {s : List ℚ} {c : ℚ} (hall : ∀ v ∈ s, v = c) (hne : s ≠ [])
    (p : ℚ) (hp0 : 0 ≤ p) (hp1 : p ≤ 1) : quantile s p = c := by
  have hm : 0 < s.length := List.length_pos.mpr hne
  have hm1 : (1 : ℚ) ≤ (s.length : ℚ) := by exact_mod_cast hm
  have h0 : 0 ≤ p * ((s.length : ℚ) - 1) := mul_nonneg hp0 (by linarith)
  have hle : p * ((s.length : ℚ) - 1) ≤ (s.length : ℚ) - 1 :=
    mul_le_of_le_one_left (by linarith) hp1
  have hfl : ⌊p * ((s.length : ℚ) - 1)⌋ ≤ (s.length : ℤ) - 1 := by
    have h2 : ⌊p * ((s.length : ℚ) - 1)⌋ ≤ ⌊((s.length : ℚ) - 1)⌋ :=
      Int.floor_le_floor hle
    have h3 : ⌊((s.length : ℚ) - 1)⌋ = (s.length : ℤ) - 1 := by
      rw [show ((s.length : ℚ) - 1) = (((s.length : ℤ) - 1 : ℤ) : ℚ) by push_cast; ring,
        Int.floor_intCast]
    exact h2.trans_eq h3
  have hfl0 : 0 ≤ ⌊p * ((s.length : ℚ) - 1)⌋ := Int.floor_nonneg.mpr h0
  have hl : (⌊p * ((s.length : ℚ) - 1)⌋).toNat < s.length := by omega
  unfold quantile
  have hvl : s.getD (⌊p * ((s.length : ℚ) - 1)⌋).toNat 0 = c :=
    hall _ (getD_mem_of_lt hl 0)
  rw [hvl]
  have hvh : s.getD ((⌊p * ((s.length : ℚ) - 1)⌋).toNat + 1) c = c := by
    by_cases h2 : (⌊p * ((s.length : ℚ) - 1)⌋).toNat + 1 < s.length
    · exact hall _ (getD_mem_of_lt h2 c)
    · rw [List.getD_eq_getElem?_getD, List.getElem?_eq_none (by omega)]
      rfl
  rw [hvh]
  ring

theorem qcutScores_const_none {values : List ℚ} {c : ℚ} (hall : ∀ v ∈ values, v = c)
    (hne : values ≠ []) (labels : List ℤ) : qcutScores values labels = none := by
  have hsall : ∀ v ∈ List.insertionSort (· ≤ ·) values, v = c := fun v hv =>
    hall v ((List.perm_insertionSort _ values).mem_iff.mp hv)
  have hsne : List.insertionSort (· ≤ ·) values ≠ [] := by
    intro hnil
    apply hne
    have hp := List.perm_insertionSort (· ≤ ·) values
    rw [hnil] at hp
    exact hp.symm.eq_nil
  have hedges : qcutEdges values = [c, c, c, c, c, c] := by
    simp only [qcutEdges, List.map_cons, List.map_nil]
    rw [quantile_const hsall hsne 0 (by norm_num) (by norm_num),
      quantile_const hsall hsne (1/5) (by norm_num) (by norm_num),
      quantile_const hsall hsne (2/5) (by norm_num) (by norm_num),
      quantile_const hsall hsne (3/5) (by norm_num) (by norm_num),
      quantile_const hsall hsne (4/5) (by norm_num) (by norm_num),
      quantile_const hsall hsne 1 (by norm_num) (by norm_num)]
  have hd : ([c, c, c, c, c, c] : List ℚ).dedup = [c] := by simp
  unfold qcutScores
  rw [if_neg hne, hedges, hd]
  norm_num

theorem cutScores_const_collapse {values : List ℚ} {c : ℚ}
    (hall : ∀ v ∈ values, v = c) {labels : List ℤ} {s : List ℤ}
    (h : cutScores values labels = some s) : ∀ x ∈ s, ∀ y ∈ s, x = y := by
  cases values with
  | nil => simp [cutScores] at h
  | cons v0 rest =>
    simp only [cutScores] at h
    repeat' split at h
    all_goals first
      | (injection h with h
         subst h
         intro x hx y hy
         obtain ⟨vx, hvx, rfl⟩ := List.mem_map.mp hx
         obtain ⟨vy, hvy, rfl⟩ := List.mem_map.mp hy
         rw [hall vx hvx, hall vy hvy])
      | exact absurd h (by simp)

theorem rfm_freq_values_one {df : List Purchase}
    (h1 : ∀ c ∈ customers df, countFor df c = 1) :
    ∀ v ∈ (rfmAggregate df).map (fun a => (a.frequency : ℚ)), v = 1 := by
  intro v hv
  obtain ⟨a, ha, rfl⟩ := List.mem_map.mp hv
  obtain ⟨cc, hcc, rfl⟩ := List.mem_map.mp ha
  show ((countFor df cc : ℕ) : ℚ) = 1
  rw [h1 cc hcc]
  norm_num

theorem rfm_mem_elim {df : List Purchase} {rows : List RfmRow}
    (h : calculate_rfm_segmentation df = some rows)
    {r : RfmRow} (hr : r ∈ rows) :
    ∃ rs fs ms rv fv mv,
      scoreColumn ((rfmAggregate df).map (fun a => (a.recency : ℚ))) [5, 4, 3, 2, 1]
        = some rs ∧
      scoreColumn ((rfmAggregate df).map (fun a => (a.frequency : ℚ))) [1, 2, 3, 4, 5]
        = some fs ∧
      scoreColumn ((rfmAggregate df).map (fun a => a.monetary)) [1, 2, 3, 4, 5]
        = some ms ∧
      rv ∈ rs ∧ fv ∈ fs ∧ mv ∈ ms ∧
      r.rScore = rv ∧ r.fScore = fv ∧ r.mScore = mv := by
  unfold calculate_rfm_segmentation at h
  split at h
  · next rs fs ms hrs hfs hms =>
    injection h with h
    subst h
    obtain ⟨x, hx, rfl⟩ := List.mem_map.mp hr
    obtain ⟨⟨⟨a, rv⟩, fv⟩, mv⟩ := x
    have h3 := List.of_mem_zip hx
    have h2 := List.of_mem_zip h3.1
    have h1 := List.of_mem_zip h2.1
    exact ⟨rs, fs, ms, rv, fv, mv, hrs, hfs, hms, h1.2, h2.2, h3.2, rfl, rfl, rfl⟩
  · exact absurd h (by simp)

theorem rfm_isSome_of_cols {df : List Purchase} {rs fs ms : List ℤ}
    (hrs : scoreColumn ((rfmAggregate df).map (fun a => (a.recency : ℚ))) [5, 4, 3, 2, 1]
      = some rs)
    (hfs : scoreColumn ((rfmAggregate df).map (fun a => (a.frequency : ℚ))) [1, 2, 3, 4, 5]
      = some fs)
    (hms : scoreColumn ((rfmAggregate df).map (fun a => a.monetary)) [1, 2, 3, 4, 5]
      = some ms) :
    ∃ rows, calculate_rfm_segmentation df = some rows := by
  have hsome : (calculate_rfm_segmentation df).isSome := by
    unfold calculate_rfm_segmentation
    rw [hrs, hfs, hms]
    rfl
  exact Option.isSome_iff_exists.mp hsome

theorem rfm_cols_ne_nil {df : List Purchase} (hne : df ≠ []) (f : RfmAgg → ℚ) :
    (rfmAggregate df).map f ≠ [] := by
  simp only [ne_eq, List.map_eq_nil_iff, rfmAggregate]
  exact customers_ne_nil hne

/-- C6.  For every non-empty dataset the RFM segmenter returns a table,
and every row's R, F and M scores are integers in [1, 5]: on the quantile
path each score is one of the five given labels, and on the equal-width
fallback path likewise. -/
theorem rfm_scores_in_range (df : List Purchase) (hne : df ≠ []) :
    ∃ rows, calculate_rfm_segmentation df = some rows ∧
      ∀ r ∈ rows, (1 ≤ r.rScore ∧ r.rScore ≤ 5) ∧ (1 ≤ r.fScore ∧ r.fScore ≤ 5) ∧
        (1 ≤ r.mScore ∧ r.mScore ≤ 5) := by
  obtain ⟨rs, hrs⟩ := scoreColumn_isSome
    ((rfmAggregate df).map (fun a => (a.recency : ℚ))) [5, 4, 3, 2, 1]
    (rfm_cols_ne_nil hne _)
  obtain ⟨fs, hfs⟩ := scoreColumn_isSome
    ((rfmAggregate df).map (fun a => (a.frequency : ℚ))) [1, 2, 3, 4, 5]
    (rfm_cols_ne_nil hne _)
  obtain ⟨ms, hms⟩ := scoreColumn_isSome
    ((rfmAggregate df).map (fun a => a.monetary)) [1, 2, 3, 4, 5]
    (rfm_cols_ne_nil hne _)
  obtain ⟨rows, hrows⟩ := rfm_isSome_of_cols hrs hfs hms
  refine ⟨rows, hrows, ?_⟩
  intro r hr
  obtain ⟨rs2, fs2, ms2, rv, fv, mv, hrs2, hfs2, hms2, hrv, hfv, hmv, her, hef, hem⟩ :=
    rfm_mem_elim hrows hr
  have hbr : ∀ x ∈ ([5, 4, 3, 2, 1] : List ℤ), 1 ≤ x ∧ x ≤ 5 := by decide
  have hbf : ∀ x ∈ ([1, 2, 3, 4, 5] : List ℤ), 1 ≤ x ∧ x ≤ 5 := by decide
  rw [her, hef, hem]
  exact ⟨hbr rv (scoreColumn_mem (by rfl) hrs2 rv hrv),
    hbf fv (scoreColumn_mem (by rfl) hfs2 fv hfv),
    hbf mv (scoreColumn_mem (by rfl) hms2 mv hmv)⟩

/-- C7.  On a (non-empty) dataset where every customer purchased exactly
once, the frequency segmenter yields one row per customer all labeled
新規顧客 (new customer); RFM frequency scoring finds all quantile edges
equal, so `pd.qcut` raises the (caught) label-count error and the scorer
falls back to equal-width `pd.cut` without failing, and all frequency
scores collapse to a single value. -/
theorem single_purchase_behavior (df : List Purchase) (hne : df ≠ [])
    (h1 : ∀ c ∈ customers df, countFor df c = 1) :
    (∀ r ∈ calculate_frequency_segmentation df, r.segment = "新規顧客") ∧
    (calculate_frequency_segmentation df).length = (customers df).length ∧
    qcutScores ((rfmAggregate df).map (fun a => (a.frequency : ℚ))) [1, 2, 3, 4, 5]
      = none ∧
    ∃ rows, calculate_rfm_segmentation df = some rows ∧
      ∀ x ∈ rows, ∀ y ∈ rows, x.fScore = y.fScore := by
  have hfv := rfm_freq_values_one h1
  have hfne := rfm_cols_ne_nil hne (fun a => (a.frequency : ℚ))
  have hqnone := qcutScores_const_none hfv hfne [1, 2, 3, 4, 5]
  refine ⟨?_, ?_, hqnone, ?_⟩
  · intro r hr
    obtain ⟨a, ha, rfl⟩ := List.mem_map.mp hr
    obtain ⟨cc, hcc, rfl⟩ := List.mem_map.mp ha
    show classify_frequency (countFor df cc) = "新規顧客"
    rw [h1 cc hcc]
    rfl
  · simp [calculate_frequency_segmentation, aggregate]
  · obtain ⟨rs, hrs⟩ := scoreColumn_isSome
      ((rfmAggregate df).map (fun a => (a.recency : ℚ))) [5, 4, 3, 2, 1]
      (rfm_cols_ne_nil hne _)
    obtain ⟨fs, hfscut⟩ := cutScores_isSome
      ((rfmAggregate df).map (fun a => (a.frequency : ℚ))) [1, 2, 3, 4, 5] hfne
    have hfs : scoreColumn ((rfmAggregate df).map (fun a => (a.frequency : ℚ)))
        [1, 2, 3, 4, 5] = some fs := by
      rw [scoreColumn_eq_cut hqnone]
      exact hfscut
    obtain ⟨ms, hms⟩ := scoreColumn_isSome
      ((rfmAggregate df).map (fun a => a.monetary)) [1, 2, 3, 4, 5]
      (rfm_cols_ne_nil hne _)
    obtain ⟨rows, hrows⟩ := rfm_isSome_of_cols hrs hfs hms
    refine ⟨rows, hrows, ?_⟩
    have hcollapse := cutScores_const_collapse hfv hfscut
    have hproj : ∀ x ∈ rows, x.fScore ∈ fs := by
      intro x hx
      obtain ⟨rs2, fs2, ms2, rv, fv, mv, hrs2, hfs2, hms2, hrv, hfv2, hmv, her, hef, hem⟩ :=
        rfm_mem_elim hrows hx
      have : fs2 = fs := Option.some.inj (hfs2.symm.trans hfs)
      rw [hef]
      rw [← this]
      exact hfv2
    intro x hx y hy
    exact hcollapse _ (hproj x hx) _ (hproj y hy)

/-- C6, witness: the non-empty dataset `dsMixed` produces an RFM table
all of whose scores lie in [1, 5]. -/
theorem rfm_scores_in_range_witness :
    ∃ rows, calculate_rfm_segmentation dsMixed = some rows ∧
      ∀ r ∈ rows, (1 ≤ r.rScore ∧ r.rScore ≤ 5) ∧ (1 ≤ r.fScore ∧ r.fScore ≤ 5) ∧
        (1 ≤ r.mScore ∧ r.mScore ≤ 5) :=
  rfm_scores_in_range dsMixed (by decide)

/-- C7, witness: on `dsOnce` (three customers, one purchase each) every
frequency row is 新規顧客, frequency quantile binning fails, and the RFM
table exists with all frequency scores equal. -/
theorem single_purchase_behavior_witness :
    (∀ r ∈ calculate_frequency_segmentation dsOnce, r.segment = "新規顧客") ∧
    (calculate_frequency_segmentation dsOnce).length = (customers dsOnce).length ∧
    qcutScores ((rfmAggregate dsOnce).map (fun a => (a.frequency : ℚ))) [1, 2, 3, 4, 5]
      = none ∧
    ∃ rows, calculate_rfm_segmentation dsOnce = some rows ∧
      ∀ x ∈ rows, ∀ y ∈ rows, x.fScore = y.fScore :=
  single_purchase_behavior dsOnce (by decide) (by decide)

end Dashboard
